import Mathlib

/-!
Verification of the Gmail rules engine (`src/rules/engine.py` and
`src/database/models.py`) as a shallow embedding.

Side effects are made explicit: the Gmail client (the message-mutation
port) is a pure function `PortCall → Bool` giving each call's success
result, the `processed_emails` table is a list of `ProcessedEmail`
records, the wall clock is an integer parameter `now` counting seconds,
and the observable behaviour of a pass (the `logger.debug` diagnostics of
the source) is an explicit `Event` trace.  Python's local variable
`success` in `process_email`, which is only assigned inside the action
loop, is modelled as an `Option Bool` (`none` = still unbound, so that
reading it raises `UnboundLocalError`, modelled as `StepResult.err`).
-/

namespace GmailRules

/-- `Email` model (`models.py`).  `received_date` and timestamps are
UTC instants measured in seconds. -/
structure Email where
  gmail_id : String
  from_address : String
  subject : Option String
  content : Option String
  received_date : Int
  is_read : Bool
  current_label : String
deriving DecidableEq, Repr

/-- `RuleCondition` model (`models.py`): field is one of
`from`, `subject`, `message`, `received_date`; unit is `days`/`months`
for date conditions (a nullable column, hence `Option`). -/
structure RuleCondition where
  field : String
  predicate : String
  value : String
  unit : Option String
deriving DecidableEq, Repr

/-- `RuleAction` model (`models.py`): `action_type` is one of
`mark_as_read`, `mark_as_unread`, `move_message`; `action_value` stores
the destination for `move_message`. -/
structure RuleAction where
  action_type : String
  action_value : String
deriving DecidableEq, Repr

/-- `Rule` model (`models.py`) with its conditions and actions inlined
(the engine fetches them by `rule_id`; the join is flattened here). -/
structure Rule where
  identifier : String
  name : String
  predicate : String
  active : Bool
  conditions : List RuleCondition
  actions : List RuleAction
deriving DecidableEq, Repr

/-- `ProcessedEmail` model (`models.py`): one ledger record, pair
(gmail_id, rule_identifier) plus the `processed_at` timestamp. -/
structure ProcessedEmail where
  gmail_id : String
  rule_identifier : String
  processed_at : Int
deriving DecidableEq, Repr

/-- A call on the message-mutation port (`GmailClient`). -/
inductive PortCall where
  | setRead (id : String)
  | setUnread (id : String)
  | relocate (id : String) (dest : String)
deriving DecidableEq, Repr

/-- Observable events of one engine pass, mirroring the source's
diagnostics: the ledger check outcome per rule, each condition
evaluation, each mutation-port call with its result, and each
processed-marking. -/
inductive Event where
  | ledgerCheck (gmailId ruleIdent : String) (wasProcessed : Bool)
  | condEval (ruleIdent : String) (result : Bool)
  | portCall (call : PortCall) (result : Bool)
  | marked (gmailId ruleIdent : String)
deriving DecidableEq, Repr

/-! ### String and integer-parsing helpers -/

/-- `needle` is a leading segment of `hay` (used for substring search). -/
def charsStart : List Char → List Char → Bool
  | [], _ => true
  | _ :: _, [] => false
  | a :: as₁, b :: bs => a == b && charsStart as₁ bs

/-- `needle` occurs contiguously in `hay`: Python's `needle in hay`. -/
def charsSub (needle : List Char) : List Char → Bool
  | [] => needle.isEmpty
  | c :: t => charsStart needle (c :: t) || charsSub needle t

/-- Python's `s.lower()`, as a character list (ASCII case folding;
Python's full Unicode folding agrees on the ASCII inputs at play). -/
def lowerChars (s : String) : List Char :=
  s.data.map Char.toLower

/-- Python's `s.strip()` behaviour used by `int(...)`: whitespace
removed from both ends. -/
def charsTrim (cs : List Char) : List Char :=
  ((cs.dropWhile Char.isWhitespace).reverse.dropWhile Char.isWhitespace).reverse

/-- Accumulating decimal-digit parse; fails on any non-digit. -/
def parseDigitsAux (acc : Nat) : List Char → Option Nat
  | [] => some acc
  | c :: cs =>
    if c.isDigit then parseDigitsAux (acc * 10 + (c.toNat - 48)) cs
    else none

/-- Python's `int(s)` on a string: surrounding whitespace stripped,
optional sign, at least one decimal digit; `none` models the
`ValueError` path (digit-group underscores are not modelled). -/
def pyIntOfString (s : String) : Option Int :=
  match charsTrim s.data with
  | [] => none
  | '+' :: cs =>
    if cs.isEmpty then none else (parseDigitsAux 0 cs).map Int.ofNat
  | '-' :: cs =>
    if cs.isEmpty then none else
      (parseDigitsAux 0 cs).map (fun n => -(Int.ofNat n))
  | cs => (parseDigitsAux 0 cs).map Int.ofNat

/-- One day of `timedelta`, in seconds. -/
def secondsPerDay : Int := 86400

/-! ### Condition evaluator (`engine.py` lines 115-174) -/

/-- `RulesEngine._evaluate_string_condition`: case-insensitive
contains / does_not_contain / equals / does_not_equal; any other
predicate yields the initial `result = False`. -/
def evaluate_string_condition (condition : RuleCondition) (value : String) : Bool :=
  if condition.predicate == "contains" then
    charsSub (lowerChars condition.value) (lowerChars value)
  else if condition.predicate == "does_not_contain" then
    !(charsSub (lowerChars condition.value) (lowerChars value))
  else if condition.predicate == "equals" then
    lowerChars condition.value == lowerChars value
  else if condition.predicate == "does_not_equal" then
    !(lowerChars condition.value == lowerChars value)
  else
    false

/-- `RulesEngine._evaluate_date_condition`: parse `value` as an int
(`none` models the caught `ValueError`/`TypeError`, returning `False`);
non-positive values return `False`; `months` ≈ 30 days; `less_than` /
`greater_than` compare `now - date` strictly against the delta; any
other predicate falls through to `False`. -/
def evaluate_date_condition (condition : RuleCondition) (date now : Int) : Bool :=
  match pyIntOfString condition.value with
  | none => false
  | some value =>
    if value ≤ 0 then false
    else
      let delta : Int :=
        if condition.unit == some "months" then value * 30 * secondsPerDay
        else value * secondsPerDay
      if condition.predicate == "less_than" then
        decide (now - date < delta)
      else if condition.predicate == "greater_than" then
        decide (now - date > delta)
      else false

/-- `RulesEngine._evaluate_condition`: dispatch on the condition field;
missing subject/content are treated as the empty string (`or ''`);
unknown fields return `False`. -/
def evaluate_condition (condition : RuleCondition) (email : Email) (now : Int) : Bool :=
  if condition.field == "from" then
    evaluate_string_condition condition email.from_address
  else if condition.field == "subject" then
    evaluate_string_condition condition (email.subject.getD "")
  else if condition.field == "message" then
    evaluate_string_condition condition (email.content.getD "")
  else if condition.field == "received_date" then
    evaluate_date_condition condition email.received_date now
  else false

/-- `RulesEngine._evaluate_rule`: empty condition list never matches;
otherwise every condition is evaluated (each evaluation is logged,
here recorded as a `condEval` event), then combined with `all` when
the rule's predicate is `"all"` and with `any` otherwise. -/
def evaluate_rule (rule : Rule) (conditions : List RuleCondition)
    (email : Email) (now : Int) : Bool × List Event :=
  if conditions.isEmpty then (false, [])
  else
    let results := conditions.map (fun c => evaluate_condition c email now)
    let events := conditions.map (fun c =>
      Event.condEval rule.identifier (evaluate_condition c email now))
    if rule.predicate == "all" then (results.all id, events)
    else (results.any id, events)

/-! ### Idempotency ledger (`engine.py` lines 176-218) -/

/-- Python's `max(records, key=lambda r: r.processed_at)` starting from
`r`: keeps the current maximum, replacing it only on a strictly larger
key, so ties keep the earliest-listed record. -/
def maxByTime (r : ProcessedEmail) : List ProcessedEmail → ProcessedEmail
  | [] => r
  | x :: xs => maxByTime (if r.processed_at < x.processed_at then x else r) xs

/-- `RulesEngine._is_already_processed`: filter the ledger to this
email's records; `(False, "")` when there are none; `(True, ident)` as
soon as a record carries the exact rule identifier; otherwise
`(False, ident of the most recently processed record)`. -/
def is_already_processed (gmail_id rule_identifier : String)
    (ledger : List ProcessedEmail) : Bool × String :=
  let processed_records := ledger.filter (fun r => r.gmail_id == gmail_id)
  match processed_records with
  | [] => (false, "")
  | r0 :: rest =>
    match (r0 :: rest).find? (fun r => r.rule_identifier == rule_identifier) with
    | some r => (true, r.rule_identifier)
    | none => (false, (maxByTime r0 rest).rule_identifier)

/-- `RulesEngine._mark_as_processed`: upsert — refresh the timestamp of
the first record with the exact (gmail_id, rule_identifier) pair, or
append a new record when none exists. -/
def mark_as_processed (gmail_id rule_identifier : String) (now : Int) :
    List ProcessedEmail → List ProcessedEmail
  | [] => [⟨gmail_id, rule_identifier, now⟩]
  | r :: rs =>
    if r.gmail_id == gmail_id && r.rule_identifier == rule_identifier then
      { r with processed_at := now } :: rs
    else
      r :: mark_as_processed gmail_id rule_identifier now rs

/-- Number of ledger records for one (gmail_id, rule_identifier) pair. -/
def countPair (ledger : List ProcessedEmail) (gmail_id rule_identifier : String) : Nat :=
  (ledger.filter (fun r =>
    r.gmail_id == gmail_id && r.rule_identifier == rule_identifier)).length

/-- Whether the ledger holds a record for the exact pair. -/
def hasRecord (ledger : List ProcessedEmail) (gmail_id rule_identifier : String) : Bool :=
  ledger.any (fun r =>
    r.gmail_id == gmail_id && r.rule_identifier == rule_identifier)

/-- The uniqueness invariant of the `processed_emails` table: at most
one record per (gmail_id, rule_identifier) pair. -/
def atMostOnePerPair (ledger : List ProcessedEmail) : Prop :=
  ∀ g i, countPair ledger g i ≤ 1

/-! ### Action dispatch (`engine.py` lines 54-82) -/

/-- One iteration of the action loop in `process_email`: `success`
starts `False`; a recognised `action_type` calls the port and, on
success, mutates the matching in-memory field; an unrecognised type
makes no port call and leaves `success = False`. -/
def run_action (port : PortCall → Bool) (email : Email) (action : RuleAction) :
    Email × Bool × List Event :=
  if action.action_type == "mark_as_read" then
    let success := port (.setRead email.gmail_id)
    ((if success then { email with is_read := true } else email), success,
      [.portCall (.setRead email.gmail_id) success])
  else if action.action_type == "mark_as_unread" then
    let success := port (.setUnread email.gmail_id)
    ((if success then { email with is_read := false } else email), success,
      [.portCall (.setUnread email.gmail_id) success])
  else if action.action_type == "move_message" then
    let success := port (.relocate email.gmail_id action.action_value)
    ((if success then { email with current_label := action.action_value } else email),
      success, [.portCall (.relocate email.gmail_id action.action_value) success])
  else
    (email, false, [])

/-- The action loop of `process_email`: every action is attempted in
declared order, threading the in-memory email; the `success` local is
overwritten by each action and keeps its previous value (`succ0`,
`none` when still unbound) when the list is empty. -/
def execute_actions (port : PortCall → Bool) (email : Email) (succ0 : Option Bool) :
    List RuleAction → Email × Option Bool × List Event
  | [] => (email, succ0, [])
  | a :: rest =>
    let step := run_action port email a
    let tail := execute_actions port step.1 (some step.2.1) rest
    (tail.1, tail.2.1, step.2.2 ++ tail.2.2)

/-! ### Orchestrator (`engine.py` lines 20-91) -/

/-- The mutable state of one `process_email` call: the in-memory email,
the ledger, the function-local `success` flag (`none` = never assigned),
and the event trace. -/
structure EngineState where
  email : Email
  ledger : List ProcessedEmail
  success : Option Bool
  events : List Event
deriving DecidableEq, Repr

/-- Result of (part of) a pass: normal return, or the
`UnboundLocalError` raised when `if success:` reads the never-assigned
local (empty action list with the flag still unbound), with the state
at the moment of the raise. -/
inductive StepResult where
  | ok (s : EngineState)
  | err (s : EngineState)
deriving DecidableEq, Repr

/-- Whether the pass raised. -/
def StepResult.isErr : StepResult → Bool
  | .ok _ => false
  | .err _ => true

/-- The carried state of either outcome. -/
def StepResult.state : StepResult → EngineState
  | .ok s => s
  | .err s => s

/-- The body of `process_email`'s rule loop for one rule: ledger check
(skip when already processed), condition evaluation, action execution
on a match, then `if success:` — marking as processed when the flag is
`True`, raising when it was never assigned. -/
def process_rule (port : PortCall → Bool) (now : Int) (s : EngineState)
    (rule : Rule) : StepResult :=
  let chk := is_already_processed s.email.gmail_id rule.identifier s.ledger
  let s1 : EngineState := { s with
    events := s.events ++ [.ledgerCheck s.email.gmail_id rule.identifier chk.1] }
  if chk.1 then .ok s1
  else
    let ev := evaluate_rule rule rule.conditions s1.email now
    let s2 : EngineState := { s1 with events := s1.events ++ ev.2 }
    if ev.1 then
      let ex := execute_actions port s2.email s2.success rule.actions
      let s3 : EngineState := { s2 with
        email := ex.1, success := ex.2.1, events := s2.events ++ ex.2.2 }
      match s3.success with
      | none => .err s3
      | some true => .ok { s3 with
          ledger := mark_as_processed s3.email.gmail_id rule.identifier now s3.ledger,
          events := s3.events ++ [.marked s3.email.gmail_id rule.identifier] }
      | some false => .ok s3
    else .ok s2

/-- The rule loop: process each rule in list order; an
`UnboundLocalError` aborts the rest of the pass. -/
def process_rules (port : PortCall → Bool) (now : Int) (s : EngineState) :
    List Rule → StepResult
  | [] => .ok s
  | r :: rs =>
    match process_rule port now s r with
    | .ok s1 => process_rules port now s1 rs
    | .err s1 => .err s1

/-- `RulesEngine.process_email`: query the active rules and run the
rule loop with the `success` local unbound and an empty trace. -/
def process_email (port : PortCall → Bool) (now : Int) (rules : List Rule)
    (email : Email) (ledger : List ProcessedEmail) : StepResult :=
  process_rules port now ⟨email, ledger, none, []⟩ (rules.filter (fun r => r.active))

/-! ### Helper lemmas -/

/-- A single action never changes the message id. -/
lemma run_action_gmail_id (port : PortCall → Bool) (email : Email) (a : RuleAction) :
    (run_action port email a).1.gmail_id = email.gmail_id := by
  unfold run_action
  split_ifs <;> simp [apply_ite]

/-- The action loop never changes the message id. -/
lemma execute_actions_gmail_id (port : PortCall → Bool) (acts : List RuleAction) :
    ∀ (email : Email) (s0 : Option Bool),
      (execute_actions port email s0 acts).1.gmail_id = email.gmail_id := by
  induction acts with
  | nil => intro email s0; rfl
  | cons a rest ih =>
    intro email s0
    unfold execute_actions
    rw [ih]
    exact run_action_gmail_id port email a

/-- A non-empty action loop always assigns the `success` local. -/
lemma execute_actions_isSome (port : PortCall → Bool) (acts : List RuleAction)
    (h : acts ≠ []) :
    ∀ (email : Email) (s0 : Option Bool),
      ((execute_actions port email s0 acts).2.1).isSome = true := by
  induction acts with
  | nil => exact absurd rfl h
  | cons a rest ih =>
    intro email s0
    unfold execute_actions
    by_cases hr : rest = []
    · subst hr; rfl
    · exact ih hr _ _

/-- Splitting the filter count at a cons cell. -/
lemma countPair_cons (r : ProcessedEmail) (rs : List ProcessedEmail) (g i : String) :
    countPair (r :: rs) g i =
      (if r.gmail_id == g && r.rule_identifier == i then 1 else 0) + countPair rs g i := by
  unfold countPair
  rw [List.filter_cons]
  split <;> simp [Nat.add_comm]

/-- The pair is absent exactly when its count is zero. -/
lemma hasRecord_false_iff (l : List ProcessedEmail) (g i : String) :
    hasRecord l g i = false ↔ countPair l g i = 0 := by
  unfold hasRecord countPair
  rw [List.length_eq_zero, List.filter_eq_nil_iff]
  simp [List.any_eq_true]

/-- The pair is present exactly when some record carries it. -/
lemma hasRecord_true_iff (l : List ProcessedEmail) (g i : String) :
    hasRecord l g i = true ↔ ∃ r ∈ l, r.gmail_id = g ∧ r.rule_identifier = i := by
  unfold hasRecord
  simp [List.any_eq_true]

/-- Marking a pair that has no record appends exactly one new record. -/
lemma mark_as_processed_of_absent (g i : String) (t : Int) :
    ∀ l : List ProcessedEmail, hasRecord l g i = false →
      mark_as_processed g i t l = l ++ [⟨g, i, t⟩] := by
  intro l
  induction l with
  | nil => intro _; rfl
  | cons r rs ih =>
    intro h
    unfold hasRecord at h
    simp only [List.any_cons, Bool.or_eq_false_iff] at h
    unfold mark_as_processed
    rw [if_neg (by simp [h.1]), ih]
    · rfl
    · unfold hasRecord; exact h.2

/-- Unfolding the upsert at a cell that carries the exact pair. -/
lemma mark_as_processed_cons_pos (g i : String) (t : Int) (r : ProcessedEmail)
    (rs : List ProcessedEmail)
    (hr : (r.gmail_id == g && r.rule_identifier == i) = true) :
    mark_as_processed g i t (r :: rs) = { r with processed_at := t } :: rs := by
  simp only [mark_as_processed]
  rw [if_pos hr]

/-- Unfolding the upsert at a cell that does not carry the pair. -/
lemma mark_as_processed_cons_neg (g i : String) (t : Int) (r : ProcessedEmail)
    (rs : List ProcessedEmail)
    (hr : ¬(r.gmail_id == g && r.rule_identifier == i) = true) :
    mark_as_processed g i t (r :: rs) = r :: mark_as_processed g i t rs := by
  simp only [mark_as_processed]
  rw [if_neg hr]

/-- Marking a pair changes no other pair's record count. -/
lemma countPair_mark_other (g i g2 i2 : String) (t : Int)
    (hne : ¬(g2 = g ∧ i2 = i)) :
    ∀ l : List ProcessedEmail,
      countPair (mark_as_processed g i t l) g2 i2 = countPair l g2 i2 := by
  intro l
  induction l with
  | nil =>
    show countPair [⟨g, i, t⟩] g2 i2 = countPair [] g2 i2
    rw [countPair_cons]
    have hf : (((⟨g, i, t⟩ : ProcessedEmail).gmail_id == g2) &&
        ((⟨g, i, t⟩ : ProcessedEmail).rule_identifier == i2)) = false := by
      by_contra hb
      rw [Bool.not_eq_false, Bool.and_eq_true, beq_iff_eq, beq_iff_eq] at hb
      exact hne ⟨hb.1.symm, hb.2.symm⟩
    rw [hf]
    rfl
  | cons r rs ih =>
    by_cases hr : (r.gmail_id == g && r.rule_identifier == i) = true
    · rw [mark_as_processed_cons_pos g i t r rs hr, countPair_cons, countPair_cons]
    · rw [mark_as_processed_cons_neg g i t r rs hr, countPair_cons, countPair_cons, ih]

/-- Marking a pair already present keeps that pair's count; marking an
absent pair raises it from zero to one. -/
lemma countPair_mark_self (g i : String) (t : Int) :
    ∀ l : List ProcessedEmail,
      countPair (mark_as_processed g i t l) g i =
        (if hasRecord l g i then countPair l g i else countPair l g i + 1) := by
  intro l
  induction l with
  | nil =>
    show countPair [⟨g, i, t⟩] g i = _
    rw [countPair_cons]
    have hc : (((⟨g, i, t⟩ : ProcessedEmail).gmail_id == g) &&
        ((⟨g, i, t⟩ : ProcessedEmail).rule_identifier == i)) = true := by
      simp
    rw [hc]
    simp [countPair, hasRecord]
  | cons r rs ih =>
    by_cases hr : (r.gmail_id == g && r.rule_identifier == i) = true
    · have hrec : hasRecord (r :: rs) g i = true := by
        unfold hasRecord
        rw [List.any_cons, hr, Bool.true_or]
      rw [mark_as_processed_cons_pos g i t r rs hr, hrec, if_pos rfl,
        countPair_cons, countPair_cons]
    · have hrb : (r.gmail_id == g && r.rule_identifier == i) = false := by
        cases hb : (r.gmail_id == g && r.rule_identifier == i)
        · rfl
        · exact absurd hb hr
      have hrec : hasRecord (r :: rs) g i = hasRecord rs g i := by
        unfold hasRecord
        rw [List.any_cons, hrb, Bool.false_or]
      have hz : (if (r.gmail_id == g && r.rule_identifier == i) = true then 1 else 0) = 0 :=
        if_neg hr
      rw [mark_as_processed_cons_neg g i t r rs hr, countPair_cons, hz, ih,
        hrec, countPair_cons, hz]
      split <;> omega

/-- Marking preserves the at-most-one-record-per-pair invariant. -/
lemma atMostOnePerPair_mark (g i : String) (t : Int) (l : List ProcessedEmail)
    (h : atMostOnePerPair l) : atMostOnePerPair (mark_as_processed g i t l) := by
  intro g2 i2
  by_cases hp : g2 = g ∧ i2 = i
  · rcases hp with ⟨rfl, rfl⟩
    rw [countPair_mark_self]
    split
    · exact h g2 i2
    · next habs =>
      have h0 : countPair l g2 i2 = 0 := by
        rw [← hasRecord_false_iff]
        cases hb : hasRecord l g2 i2
        · rfl
        · exact absurd hb habs
      omega
  · rw [countPair_mark_other g i g2 i2 t hp]
    exact h g2 i2

/-- The running maximum is one of the candidates. -/
lemma maxByTime_mem : ∀ (xs : List ProcessedEmail) (r : ProcessedEmail),
    maxByTime r xs ∈ r :: xs := by
  intro xs
  induction xs with
  | nil => intro r; exact List.mem_cons_self r []
  | cons x xs ih =>
    intro r
    unfold maxByTime
    rcases List.mem_cons.mp (ih (if r.processed_at < x.processed_at then x else r)) with h | h
    · rw [h]
      split
      · exact List.mem_cons_of_mem r (List.mem_cons_self x xs)
      · exact List.mem_cons_self r (x :: xs)
    · exact List.mem_cons_of_mem r (List.mem_cons_of_mem x h)

/-- The running maximum bounds every candidate's timestamp. -/
lemma maxByTime_le : ∀ (xs : List ProcessedEmail) (r : ProcessedEmail),
    ∀ y ∈ r :: xs, y.processed_at ≤ (maxByTime r xs).processed_at := by
  intro xs
  induction xs with
  | nil =>
    intro r y hy
    rcases List.mem_cons.mp hy with h | h
    · rw [h]
      exact le_refl _
    · exact absurd h (List.not_mem_nil y)
  | cons x xs ih =>
    intro r y hy
    unfold maxByTime
    have hc : r.processed_at ≤ (if r.processed_at < x.processed_at then x else r).processed_at ∧
        x.processed_at ≤ (if r.processed_at < x.processed_at then x else r).processed_at := by
      split <;> constructor <;> omega
    have hmax := ih (if r.processed_at < x.processed_at then x else r)
    rcases List.mem_cons.mp hy with h | h
    · rw [h]
      exact le_trans hc.1 (hmax _ (List.mem_cons_self _ _))
    · rcases List.mem_cons.mp h with h2 | h2
      · rw [h2]
        exact le_trans hc.2 (hmax _ (List.mem_cons_self _ _))
      · exact hmax y (List.mem_cons_of_mem _ h2)

/-- The ledger query answers `true` exactly when a record with the
exact (gmail_id, rule_identifier) pair exists. -/
lemma is_already_processed_fst_iff (g i : String) (l : List ProcessedEmail) :
    (is_already_processed g i l).1 = true ↔
      ∃ r ∈ l, r.gmail_id = g ∧ r.rule_identifier = i := by
  simp only [is_already_processed]
  cases hf : List.filter (fun r => r.gmail_id == g) l with
  | nil =>
    constructor
    · intro h
      simp at h
    · rintro ⟨r, hrl, hg, _⟩
      have hmem : r ∈ List.filter (fun r => r.gmail_id == g) l := by
        rw [List.mem_filter]
        exact ⟨hrl, by simp [hg]⟩
      rw [hf] at hmem
      exact absurd hmem (List.not_mem_nil r)
  | cons r0 rest =>
    dsimp only
    cases hq : List.find? (fun r => r.rule_identifier == i) (r0 :: rest) with
    | some r =>
      dsimp only
      constructor
      · intro _
        have hmem : r ∈ r0 :: rest := List.mem_of_find?_eq_some hq
        rw [← hf, List.mem_filter] at hmem
        have hir := List.find?_some hq
        simp only [beq_iff_eq] at hir
        exact ⟨r, hmem.1, by simpa using hmem.2, hir⟩
      · intro _
        rfl
    | none =>
      dsimp only
      constructor
      · intro h
        simp at h
      · rintro ⟨r, hrl, hg, hi⟩
        have hmem : r ∈ List.filter (fun r => r.gmail_id == g) l := by
          rw [List.mem_filter]
          exact ⟨hrl, by simp [hg]⟩
        rw [hf] at hmem
        have := (List.find?_eq_none.mp hq) r hmem
        simp [hi] at this

/-- The query's boolean agrees with `hasRecord`. -/
lemma is_already_processed_fst_eq (g i : String) (l : List ProcessedEmail) :
    (is_already_processed g i l).1 = hasRecord l g i := by
  cases hb : hasRecord l g i
  · cases hp : (is_already_processed g i l).1
    · rfl
    · exfalso
      rcases (is_already_processed_fst_iff g i l).mp hp with ⟨r, hrl, hg, hi⟩
      have : hasRecord l g i = true := (hasRecord_true_iff l g i).mpr ⟨r, hrl, hg, hi⟩
      rw [hb] at this
      cases this
  · exact (is_already_processed_fst_iff g i l).mpr ((hasRecord_true_iff l g i).mp hb)

/-- When the message has records but none with the queried identifier,
the query's second component is the identifier of a most recently
processed record of the message. -/
lemma is_already_processed_snd_latest (g i : String) (l : List ProcessedEmail)
    (hsome : ∃ r ∈ l, r.gmail_id = g)
    (hnone : ¬∃ r ∈ l, r.gmail_id = g ∧ r.rule_identifier = i) :
    (is_already_processed g i l).1 = false ∧
    ∃ r ∈ l, r.gmail_id = g ∧
      r.rule_identifier = (is_already_processed g i l).2 ∧
      ∀ r2 ∈ l, r2.gmail_id = g → r2.processed_at ≤ r.processed_at := by
  have hfst : (is_already_processed g i l).1 = false := by
    cases hp : (is_already_processed g i l).1
    · rfl
    · exact absurd ((is_already_processed_fst_iff g i l).mp hp) hnone
  refine ⟨hfst, ?_⟩
  simp only [is_already_processed]
  cases hf : List.filter (fun r => r.gmail_id == g) l with
  | nil =>
    exfalso
    rcases hsome with ⟨r, hrl, hg⟩
    have hmem : r ∈ List.filter (fun r => r.gmail_id == g) l := by
      rw [List.mem_filter]
      exact ⟨hrl, by simp [hg]⟩
    rw [hf] at hmem
    exact absurd hmem (List.not_mem_nil r)
  | cons r0 rest =>
    dsimp only
    cases hq : List.find? (fun r => r.rule_identifier == i) (r0 :: rest) with
    | some r =>
      exfalso
      have hmem : r ∈ r0 :: rest := List.mem_of_find?_eq_some hq
      rw [← hf, List.mem_filter] at hmem
      have hir := List.find?_some hq
      simp only [beq_iff_eq] at hir
      exact hnone ⟨r, hmem.1, by simpa using hmem.2, hir⟩
    | none =>
      dsimp only
      have hmax : maxByTime r0 rest ∈ r0 :: rest := maxByTime_mem rest r0
      rw [← hf, List.mem_filter] at hmax
      refine ⟨maxByTime r0 rest, hmax.1, by simpa using hmax.2, rfl, ?_⟩
      intro r2 hr2l hr2g
      have hr2f : r2 ∈ List.filter (fun r => r.gmail_id == g) l := by
        rw [List.mem_filter]
        exact ⟨hr2l, by simp [hr2g]⟩
      rw [hf] at hr2f
      exact maxByTime_le rest r0 r2 hr2f

/-- The port-call event one action contributes to the trace, if any:
recognised action types call the port once; unknown types call nothing. -/
def actionEvent (port : PortCall → Bool) (gid : String) (a : RuleAction) : Option Event :=
  if a.action_type == "mark_as_read" then
    some (.portCall (.setRead gid) (port (.setRead gid)))
  else if a.action_type == "mark_as_unread" then
    some (.portCall (.setUnread gid) (port (.setUnread gid)))
  else if a.action_type == "move_message" then
    some (.portCall (.relocate gid a.action_value) (port (.relocate gid a.action_value)))
  else none

/-- A single action's trace is exactly its `actionEvent`. -/
lemma run_action_events (port : PortCall → Bool) (email : Email) (a : RuleAction) :
    (run_action port email a).2.2 = (actionEvent port email.gmail_id a).toList := by
  unfold run_action actionEvent
  split_ifs <;> rfl

/-- The action loop's trace is one port call per recognised action, in
declared order — a later action is attempted whatever the earlier
actions' outcomes were. -/
lemma execute_actions_events (port : PortCall → Bool) (acts : List RuleAction) :
    ∀ (email : Email) (s0 : Option Bool),
      (execute_actions port email s0 acts).2.2 =
        acts.filterMap (actionEvent port email.gmail_id) := by
  induction acts with
  | nil => intro email s0; rfl
  | cons a rest ih =>
    intro email s0
    unfold execute_actions
    dsimp only
    rw [ih, run_action_gmail_id, run_action_events]
    cases hfa : actionEvent port email.gmail_id a <;>
      simp [List.filterMap_cons, hfa]

/-- Folding `all` over a mapped list is `all` of the composite. -/
lemma all_map_id {α : Type} (f : α → Bool) (l : List α) :
    (l.map f).all id = l.all f := by
  induction l with
  | nil => rfl
  | cons a t ih => simp [ih]

/-- Folding `any` over a mapped list is `any` of the composite. -/
lemma any_map_id {α : Type} (f : α → Bool) (l : List α) :
    (l.map f).any id = l.any f := by
  induction l with
  | nil => rfl
  | cons a t ih => simp [ih]

/-- Unfolding the matcher on a non-empty condition list. -/
lemma evaluate_rule_cons (rule : Rule) (c : RuleCondition) (cs : List RuleCondition)
    (email : Email) (now : Int) :
    evaluate_rule rule (c :: cs) email now =
      ((if rule.predicate == "all" then
          (c :: cs).all (fun x => evaluate_condition x email now)
        else (c :: cs).any (fun x => evaluate_condition x email now)),
       (c :: cs).map (fun x =>
         Event.condEval rule.identifier (evaluate_condition x email now))) := by
  unfold evaluate_rule
  rw [if_neg (by simp : ¬(((c :: cs).isEmpty) = true))]
  dsimp only
  split
  · rw [all_map_id]
  · rw [any_map_id]

/-- Ledger short-circuit: an already-processed rule is skipped with
only the check recorded — no evaluation, no port call, no write. -/
lemma process_rule_skip (port : PortCall → Bool) (now : Int) (s : EngineState)
    (rule : Rule)
    (h : (is_already_processed s.email.gmail_id rule.identifier s.ledger).1 = true) :
    process_rule port now s rule = .ok { s with
      events := s.events ++ [.ledgerCheck s.email.gmail_id rule.identifier true] } := by
  unfold process_rule
  dsimp only
  rw [h]
  simp

/-- A rule that is not skipped and does not match only records the
check and the condition evaluations. -/
lemma process_rule_nomatch (port : PortCall → Bool) (now : Int) (s : EngineState)
    (rule : Rule)
    (h1 : (is_already_processed s.email.gmail_id rule.identifier s.ledger).1 = false)
    (h2 : (evaluate_rule rule rule.conditions s.email now).1 = false) :
    process_rule port now s rule = .ok { s with
      events := (s.events ++ [.ledgerCheck s.email.gmail_id rule.identifier false]) ++
        (evaluate_rule rule rule.conditions s.email now).2 } := by
  unfold process_rule
  dsimp only
  rw [h1, h2]
  simp

/-- A matched rule whose action loop leaves the `success` local unbound
(empty action list, flag never assigned before) raises. -/
lemma process_rule_match_unbound (port : PortCall → Bool) (now : Int)
    (s : EngineState) (rule : Rule)
    (h1 : (is_already_processed s.email.gmail_id rule.identifier s.ledger).1 = false)
    (h2 : (evaluate_rule rule rule.conditions s.email now).1 = true)
    (h3 : (execute_actions port s.email s.success rule.actions).2.1 = none) :
    process_rule port now s rule = .err {
      email := (execute_actions port s.email s.success rule.actions).1,
      ledger := s.ledger,
      success := none,
      events := ((s.events ++ [.ledgerCheck s.email.gmail_id rule.identifier false]) ++
        (evaluate_rule rule rule.conditions s.email now).2) ++
        (execute_actions port s.email s.success rule.actions).2.2 } := by
  unfold process_rule
  dsimp only
  rw [h1, h2, h3]
  simp [h3]

/-- A matched rule whose final action succeeded marks the pair as
processed. -/
lemma process_rule_match_mark (port : PortCall → Bool) (now : Int)
    (s : EngineState) (rule : Rule)
    (h1 : (is_already_processed s.email.gmail_id rule.identifier s.ledger).1 = false)
    (h2 : (evaluate_rule rule rule.conditions s.email now).1 = true)
    (h3 : (execute_actions port s.email s.success rule.actions).2.1 = some true) :
    process_rule port now s rule = .ok {
      email := (execute_actions port s.email s.success rule.actions).1,
      ledger := mark_as_processed
        (execute_actions port s.email s.success rule.actions).1.gmail_id
        rule.identifier now s.ledger,
      success := some true,
      events := (((s.events ++ [.ledgerCheck s.email.gmail_id rule.identifier false]) ++
        (evaluate_rule rule rule.conditions s.email now).2) ++
        (execute_actions port s.email s.success rule.actions).2.2) ++
        [.marked (execute_actions port s.email s.success rule.actions).1.gmail_id
          rule.identifier] } := by
  unfold process_rule
  dsimp only
  rw [h1, h2, h3]
  simp [h3]

/-- A matched rule whose final action failed leaves the ledger alone. -/
lemma process_rule_match_nomark (port : PortCall → Bool) (now : Int)
    (s : EngineState) (rule : Rule)
    (h1 : (is_already_processed s.email.gmail_id rule.identifier s.ledger).1 = false)
    (h2 : (evaluate_rule rule rule.conditions s.email now).1 = true)
    (h3 : (execute_actions port s.email s.success rule.actions).2.1 = some false) :
    process_rule port now s rule = .ok {
      email := (execute_actions port s.email s.success rule.actions).1,
      ledger := s.ledger,
      success := some false,
      events := ((s.events ++ [.ledgerCheck s.email.gmail_id rule.identifier false]) ++
        (evaluate_rule rule rule.conditions s.email now).2) ++
        (execute_actions port s.email s.success rule.actions).2.2 } := by
  unfold process_rule
  dsimp only
  rw [h1, h2, h3]
  simp [h3]

/-- The port result a single action observes: its one port call's
return value; `false` for an unrecognised action type. -/
def actionSuccess (port : PortCall → Bool) (gid : String) (a : RuleAction) : Bool :=
  if a.action_type == "mark_as_read" then port (.setRead gid)
  else if a.action_type == "mark_as_unread" then port (.setUnread gid)
  else if a.action_type == "move_message" then port (.relocate gid a.action_value)
  else false

/-- A single action's resulting `success` flag is its port result. -/
lemma run_action_success (port : PortCall → Bool) (email : Email) (a : RuleAction) :
    (run_action port email a).2.1 = actionSuccess port email.gmail_id a := by
  unfold run_action actionSuccess
  split_ifs <;> rfl

/-- After the whole action loop the `success` local holds exactly the
final action's port result. -/
lemma execute_actions_append_last (port : PortCall → Bool) (init : List RuleAction)
    (last : RuleAction) :
    ∀ (email : Email) (s0 : Option Bool),
      (execute_actions port email s0 (init ++ [last])).2.1 =
        some (actionSuccess port email.gmail_id last) := by
  induction init with
  | nil =>
    intro email s0
    show (execute_actions port email s0 [last]).2.1 = _
    unfold execute_actions
    dsimp only
    unfold execute_actions
    dsimp only
    rw [run_action_success]
  | cons x init ih =>
    intro email s0
    show (execute_actions port email s0 (x :: (init ++ [last]))).2.1 = _
    unfold execute_actions
    dsimp only
    rw [ih, run_action_gmail_id]

/-- A failed action leaves the in-memory message entirely unchanged. -/
lemma run_action_fail_unchanged (port : PortCall → Bool) (email : Email)
    (a : RuleAction) (h : (run_action port email a).2.1 = false) :
    (run_action port email a).1 = email := by
  rw [run_action_success] at h
  unfold run_action
  unfold actionSuccess at h
  split_ifs at h ⊢ <;> simp [h]

/-- The freshly appended pair is present. -/
lemma hasRecord_append_self (l : List ProcessedEmail) (g i : String) (t : Int) :
    hasRecord (l ++ [⟨g, i, t⟩]) g i = true :=
  (hasRecord_true_iff _ _ _).mpr ⟨⟨g, i, t⟩, by simp, rfl, rfl⟩

/-- Refreshing a pair that occurs nowhere in a list is the identity on
that list. -/
lemma map_upd_of_absent (g i : String) (t : Int) :
    ∀ rs : List ProcessedEmail, countPair rs g i = 0 →
      rs.map (fun r =>
        if r.gmail_id = g ∧ r.rule_identifier = i then { r with processed_at := t }
        else r) = rs := by
  intro rs
  induction rs with
  | nil => intro _; rfl
  | cons x xs ih =>
    intro h
    rw [countPair_cons] at h
    have hxs : countPair xs g i = 0 := by omega
    have hProp : ¬(x.gmail_id = g ∧ x.rule_identifier = i) := by
      intro hc
      rw [if_pos (by rw [hc.1, hc.2]; simp)] at h
      omega
    rw [List.map_cons, if_neg hProp, ih hxs]

/-- Under the uniqueness invariant, upserting a present pair is exactly
a timestamp refresh of its one record: no insertion, no other change. -/
lemma mark_eq_map_of_unique (g i : String) (t : Int) :
    ∀ l : List ProcessedEmail, atMostOnePerPair l → hasRecord l g i = true →
      mark_as_processed g i t l = l.map (fun r =>
        if r.gmail_id = g ∧ r.rule_identifier = i then { r with processed_at := t }
        else r) := by
  intro l
  induction l with
  | nil =>
    intro _ h
    cases h
  | cons r rs ih =>
    intro hinv hrec
    by_cases hr : (r.gmail_id == g && r.rule_identifier == i) = true
    · have hProp : r.gmail_id = g ∧ r.rule_identifier = i := by
        simpa only [Bool.and_eq_true, beq_iff_eq] using hr
      have hcount : countPair rs g i = 0 := by
        have h1 := hinv g i
        rw [countPair_cons, if_pos hr] at h1
        omega
      rw [mark_as_processed_cons_pos g i t r rs hr, List.map_cons, if_pos hProp,
        map_upd_of_absent g i t rs hcount]
    · have hProp : ¬(r.gmail_id = g ∧ r.rule_identifier = i) := by
        intro hc
        rw [hc.1, hc.2] at hr
        simp at hr
      have hrb : (r.gmail_id == g && r.rule_identifier == i) = false := by
        cases hb : (r.gmail_id == g && r.rule_identifier == i)
        · rfl
        · exact absurd hb hr
      have hrecs : hasRecord rs g i = true := by
        unfold hasRecord at hrec ⊢
        rw [List.any_cons, hrb, Bool.false_or] at hrec
        exact hrec
      have hinv2 : atMostOnePerPair rs := by
        intro g2 i2
        have := hinv g2 i2
        rw [countPair_cons] at this
        omega
      rw [mark_as_processed_cons_neg g i t r rs hr, List.map_cons, if_neg hProp,
        ih hinv2 hrecs]

/-! ### Concrete values used by witnesses -/

/-- A concrete message used to instantiate universally quantified
theorems. -/
def sampleEmail : Email :=
  ⟨"m1", "noreply@zomato.com", some "Order confirmed", some "hello", 0, false, "INBOX"⟩

/-- A condition every message satisfies (empty needle). -/
def sampleCond : RuleCondition := ⟨"from", "contains", "", none⟩

/-- A mutation port on which every call succeeds. -/
def alwaysTruePort : PortCall → Bool := fun _ => true

/-- A mutation port on which only `setUnread` succeeds. -/
def unreadOnlyPort : PortCall → Bool
  | .setUnread _ => true
  | _ => false

/-- A mutation port on which every call fails. -/
def alwaysFalsePort : PortCall → Bool := fun _ => false

/-- A rule with one always-matching condition and one action. -/
def ruleA : Rule := ⟨"A1", "ruleA", "any", true, [sampleCond], [⟨"mark_as_read", ""⟩]⟩

/-- A rule with one always-matching condition and no actions. -/
def ruleB : Rule := ⟨"B1", "ruleB", "any", true, [sampleCond], []⟩

/-! ### Claims -/

/-- C1: after a first pass in which the active rule R matched a fresh
message and its actions ran with the last one succeeding, a second
pass over the same message skips R at the ledger check — its trace is
the single ledger-check event, so no condition is evaluated and no
mutation-port call is made — and exactly one ProcessedRecord exists
for the (message, R.identifier) pair. -/
theorem c1_second_pass_skips_entirely (port : PortCall → Bool) (now1 now2 : Int)
    (R : Rule) (email : Email) (ledger : List ProcessedEmail)
    (hact : R.active = true)
    (hfresh : hasRecord ledger email.gmail_id R.identifier = false)
    (hmatch : (evaluate_rule R R.conditions email now1).1 = true)
    (hlast : (execute_actions port email none R.actions).2.1 = some true) :
    ∃ s1 s2 : EngineState,
      process_email port now1 [R] email ledger = .ok s1 ∧
      process_email port now2 [R] s1.email s1.ledger = .ok s2 ∧
      s2.events = [.ledgerCheck email.gmail_id R.identifier true] ∧
      (∀ c b, Event.portCall c b ∉ s2.events) ∧
      s2.ledger = s1.ledger ∧
      countPair s2.ledger email.gmail_id R.identifier = 1 := by
  have hnp : (is_already_processed email.gmail_id R.identifier ledger).1 = false := by
    rw [is_already_processed_fst_eq]
    exact hfresh
  have hgid : (execute_actions port email none R.actions).1.gmail_id =
      email.gmail_id := execute_actions_gmail_id port R.actions email none
  have hfilter : (([R] : List Rule).filter (fun r => r.active)) = [R] := by
    simp [hact]
  have hc0 : countPair ledger email.gmail_id R.identifier = 0 :=
    (hasRecord_false_iff _ _ _).mp hfresh
  have hcount1 : countPair
      (mark_as_processed email.gmail_id R.identifier now1 ledger)
      email.gmail_id R.identifier = 1 := by
    rw [countPair_mark_self]
    simp [hfresh, hc0]
  have hhas1 : hasRecord
      (mark_as_processed email.gmail_id R.identifier now1 ledger)
      email.gmail_id R.identifier = true := by
    cases hb : hasRecord (mark_as_processed email.gmail_id R.identifier now1 ledger)
        email.gmail_id R.identifier
    · exfalso
      have h0 := (hasRecord_false_iff _ _ _).mp hb
      omega
    · rfl
  have hstep1 := process_rule_match_mark port now1 ⟨email, ledger, none, []⟩ R
    hnp hmatch hlast
  have hrun1 : process_email port now1 [R] email ledger = StepResult.ok
      { email := (execute_actions port email none R.actions).1,
        ledger := mark_as_processed
          (execute_actions port email none R.actions).1.gmail_id
          R.identifier now1 ledger,
        success := some true,
        events := (([Event.ledgerCheck email.gmail_id R.identifier false] ++
          (evaluate_rule R R.conditions email now1).2) ++
          (execute_actions port email none R.actions).2.2) ++
          [Event.marked (execute_actions port email none R.actions).1.gmail_id
            R.identifier] } := by
    unfold process_email
    rw [hfilter]
    unfold process_rules
    rw [hstep1]
    rfl
  have hskip : (is_already_processed
      (execute_actions port email none R.actions).1.gmail_id R.identifier
      (mark_as_processed (execute_actions port email none R.actions).1.gmail_id
        R.identifier now1 ledger)).1 = true := by
    rw [hgid, is_already_processed_fst_eq]
    exact hhas1
  have hstep2 := process_rule_skip port now2
    ⟨(execute_actions port email none R.actions).1,
      mark_as_processed (execute_actions port email none R.actions).1.gmail_id
        R.identifier now1 ledger, none, []⟩ R hskip
  have hrun2 : process_email port now2 [R]
      (execute_actions port email none R.actions).1
      (mark_as_processed (execute_actions port email none R.actions).1.gmail_id
        R.identifier now1 ledger) = StepResult.ok
      { email := (execute_actions port email none R.actions).1,
        ledger := mark_as_processed
          (execute_actions port email none R.actions).1.gmail_id
          R.identifier now1 ledger,
        success := none,
        events := [Event.ledgerCheck
          (execute_actions port email none R.actions).1.gmail_id
          R.identifier true] } := by
    unfold process_email
    rw [hfilter]
    unfold process_rules
    rw [hstep2]
    rfl
  refine ⟨_, _, hrun1, hrun2, ?_, ?_, rfl, ?_⟩
  · show [Event.ledgerCheck (execute_actions port email none R.actions).1.gmail_id
      R.identifier true] = _
    rw [hgid]
  · intro c b hmem
    simp only [List.mem_singleton] at hmem
    cases hmem
  · show countPair (mark_as_processed
      (execute_actions port email none R.actions).1.gmail_id
      R.identifier now1 ledger) email.gmail_id R.identifier = 1
    rw [hgid]
    exact hcount1

/-- C1 witness: one rule, one succeeding action, two passes over the
same concrete message. -/
theorem c1_second_pass_skips_entirely_witness :
    ∃ s1 s2 : EngineState,
      process_email alwaysTruePort 3 [ruleA] sampleEmail [] = .ok s1 ∧
      process_email alwaysTruePort 8 [ruleA] s1.email s1.ledger = .ok s2 ∧
      s2.events = [.ledgerCheck sampleEmail.gmail_id ruleA.identifier true] ∧
      (∀ c b, Event.portCall c b ∉ s2.events) ∧
      s2.ledger = s1.ledger ∧
      countPair s2.ledger sampleEmail.gmail_id ruleA.identifier = 1 :=
  c1_second_pass_skips_entirely alwaysTruePort 3 8 ruleA sampleEmail []
    (by decide) (by decide) (by decide) (by decide)

/-- C2: for a matched, not-yet-processed rule with a non-empty action
list, the pass writes a ProcessedRecord for the (message, rule
identifier) pair exactly when the final action of the list succeeded —
earlier actions' failures play no part in the decision. -/
theorem c2_processed_marking_gated_on_last_action (port : PortCall → Bool)
    (now : Int) (s : EngineState) (rule : Rule)
    (hactions : rule.actions ≠ [])
    (hnp : (is_already_processed s.email.gmail_id rule.identifier s.ledger).1 = false)
    (hmatch : (evaluate_rule rule rule.conditions s.email now).1 = true) :
    ∃ (s2 : EngineState) (init : List RuleAction) (last : RuleAction),
      rule.actions = init ++ [last] ∧
      process_rule port now s rule = .ok s2 ∧
      hasRecord s.ledger s.email.gmail_id rule.identifier = false ∧
      hasRecord s2.ledger s.email.gmail_id rule.identifier =
        actionSuccess port s.email.gmail_id last ∧
      (actionSuccess port s.email.gmail_id last = true →
        s2.ledger = s.ledger ++ [⟨s.email.gmail_id, rule.identifier, now⟩]) ∧
      (actionSuccess port s.email.gmail_id last = false → s2.ledger = s.ledger) := by
  rcases List.eq_nil_or_concat rule.actions with hnil | ⟨init, last, hconcat⟩
  · exact absurd hnil hactions
  rw [List.concat_eq_append] at hconcat
  have hfresh : hasRecord s.ledger s.email.gmail_id rule.identifier = false := by
    rw [← is_already_processed_fst_eq]
    exact hnp
  have hlastsucc : (execute_actions port s.email s.success rule.actions).2.1 =
      some (actionSuccess port s.email.gmail_id last) := by
    rw [hconcat]
    exact execute_actions_append_last port init last s.email s.success
  have hgid : (execute_actions port s.email s.success rule.actions).1.gmail_id =
      s.email.gmail_id := execute_actions_gmail_id port rule.actions s.email s.success
  cases hb : actionSuccess port s.email.gmail_id last with
  | false =>
    have h3 : (execute_actions port s.email s.success rule.actions).2.1 = some false := by
      rw [hlastsucc, hb]
    refine ⟨_, init, last, hconcat,
      process_rule_match_nomark port now s rule hnp hmatch h3, hfresh, ?_, ?_, ?_⟩
    · rw [hb]
      exact hfresh
    · intro hc
      rw [hb] at hc
      cases hc
    · intro _
      rfl
  | true =>
    have h3 : (execute_actions port s.email s.success rule.actions).2.1 = some true := by
      rw [hlastsucc, hb]
    have hmarkeq : mark_as_processed
        (execute_actions port s.email s.success rule.actions).1.gmail_id
        rule.identifier now s.ledger =
        s.ledger ++ [⟨s.email.gmail_id, rule.identifier, now⟩] := by
      rw [hgid]
      exact mark_as_processed_of_absent _ _ _ _ hfresh
    refine ⟨_, init, last, hconcat,
      process_rule_match_mark port now s rule hnp hmatch h3, hfresh, ?_, ?_, ?_⟩
    · rw [hb]
      show hasRecord (mark_as_processed _ _ _ _) _ _ = true
      rw [hmarkeq]
      exact hasRecord_append_self s.ledger s.email.gmail_id rule.identifier now
    · intro _
      show mark_as_processed _ _ _ _ = _
      exact hmarkeq
    · intro hc
      rw [hb] at hc
      cases hc

/-- C2 witness: a two-action rule whose first action fails and whose
last action succeeds still gets its ProcessedRecord. -/
theorem c2_processed_marking_gated_on_last_action_witness :
    ∃ (s2 : EngineState) (init : List RuleAction) (last : RuleAction),
      (⟨"R1", "r", "any", true, [sampleCond],
        [⟨"mark_as_read", ""⟩, ⟨"mark_as_unread", ""⟩]⟩ : Rule).actions =
          init ++ [last] ∧
      process_rule unreadOnlyPort 7 ⟨sampleEmail, [], none, []⟩
        ⟨"R1", "r", "any", true, [sampleCond],
          [⟨"mark_as_read", ""⟩, ⟨"mark_as_unread", ""⟩]⟩ = .ok s2 ∧
      hasRecord [] sampleEmail.gmail_id "R1" = false ∧
      hasRecord s2.ledger sampleEmail.gmail_id "R1" =
        actionSuccess unreadOnlyPort sampleEmail.gmail_id last ∧
      (actionSuccess unreadOnlyPort sampleEmail.gmail_id last = true →
        s2.ledger = [] ++ [⟨sampleEmail.gmail_id, "R1", 7⟩]) ∧
      (actionSuccess unreadOnlyPort sampleEmail.gmail_id last = false →
        s2.ledger = []) :=
  c2_processed_marking_gated_on_last_action unreadOnlyPort 7
    ⟨sampleEmail, [], none, []⟩
    ⟨"R1", "r", "any", true, [sampleCond],
      [⟨"mark_as_read", ""⟩, ⟨"mark_as_unread", ""⟩]⟩
    (by decide) (by decide) (by decide)

/-- C8: a failed port call does not raise — with a non-empty action
list the rule's pass always returns normally — leaves the in-memory
message unchanged (in particular the field the action would have
mutated), and every later action of the rule is still attempted in
declared order: the trace carries one port call per recognised action
whatever the earlier results were. -/
theorem c8_action_failure_isolated :
    (∀ (port : PortCall → Bool) (email : Email) (a : RuleAction),
      (run_action port email a).2.1 = false → (run_action port email a).1 = email) ∧
    (∀ (port : PortCall → Bool) (email : Email) (s0 : Option Bool)
        (acts : List RuleAction),
      (execute_actions port email s0 acts).2.2 =
        acts.filterMap (actionEvent port email.gmail_id)) ∧
    (∀ (port : PortCall → Bool) (now : Int) (s : EngineState) (rule : Rule),
      rule.actions ≠ [] → ∃ s2, process_rule port now s rule = .ok s2) := by
  refine ⟨run_action_fail_unchanged,
    fun port email s0 acts => execute_actions_events port acts email s0, ?_⟩
  intro port now s rule hne
  cases hchk : (is_already_processed s.email.gmail_id rule.identifier s.ledger).1 with
  | true => exact ⟨_, process_rule_skip port now s rule hchk⟩
  | false =>
    cases hev : (evaluate_rule rule rule.conditions s.email now).1 with
    | false => exact ⟨_, process_rule_nomatch port now s rule hchk hev⟩
    | true =>
      have hs := execute_actions_isSome port rule.actions hne s.email s.success
      cases hx : (execute_actions port s.email s.success rule.actions).2.1 with
      | none =>
        rw [hx] at hs
        simp at hs
      | some b =>
        cases b
        · exact ⟨_, process_rule_match_nomark port now s rule hchk hev hx⟩
        · exact ⟨_, process_rule_match_mark port now s rule hchk hev hx⟩

/-- C8 witness: a port that fails every call, on a one-action and a
two-action rule at concrete inputs. -/
theorem c8_action_failure_isolated_witness :
    (run_action alwaysFalsePort sampleEmail ⟨"mark_as_read", ""⟩).1 = sampleEmail ∧
    (execute_actions alwaysFalsePort sampleEmail none
      [⟨"mark_as_read", ""⟩, ⟨"move_message", "Archive"⟩]).2.2 =
      [(⟨"mark_as_read", ""⟩ : RuleAction), ⟨"move_message", "Archive"⟩].filterMap
        (actionEvent alwaysFalsePort sampleEmail.gmail_id) ∧
    ∃ s2, process_rule alwaysFalsePort 0 ⟨sampleEmail, [], none, []⟩
      ⟨"R1", "r", "any", true, [sampleCond], [⟨"mark_as_read", ""⟩]⟩ = .ok s2 :=
  ⟨c8_action_failure_isolated.1 alwaysFalsePort sampleEmail ⟨"mark_as_read", ""⟩
      (by decide),
   c8_action_failure_isolated.2.1 alwaysFalsePort sampleEmail none
      [⟨"mark_as_read", ""⟩, ⟨"move_message", "Archive"⟩],
   c8_action_failure_isolated.2.2 alwaysFalsePort 0 ⟨sampleEmail, [], none, []⟩
      ⟨"R1", "r", "any", true, [sampleCond], [⟨"mark_as_read", ""⟩]⟩ (by decide)⟩

/-- C9 counterexample: when a matching empty-action active rule is
preceded in the same pass by a matching rule that executed an action,
the `success` local is already bound, so no unbound-local error is
raised — the pass completes normally, and (the earlier action having
succeeded) a ProcessedRecord for the empty-action rule's pair is even
written. -/
theorem c9_counterexample_no_raise_after_earlier_action :
    ruleB.active = true ∧ ruleB.actions = [] ∧
    (evaluate_rule ruleB ruleB.conditions sampleEmail 0).1 = true ∧
    (process_email alwaysTruePort 0 [ruleA, ruleB] sampleEmail []).isErr = false ∧
    hasRecord (process_email alwaysTruePort 0 [ruleA, ruleB] sampleEmail []).state.ledger
      sampleEmail.gmail_id ruleB.identifier = true := by
  decide

/-- C9 (amended): a matching active rule with an empty action list
raises the unbound-local error only when the `success` flag is still
unassigned when it is reached — in particular whenever it is the first
active rule of the pass — and then the pass aborts with no
ProcessedRecord written for the (message, rule identifier) pair. -/
theorem c9_amended_unbound_flag_raises (port : PortCall → Bool) (now : Int)
    (email : Email) (ledger : List ProcessedEmail) (rule : Rule) (rest : List Rule)
    (hact : rule.active = true)
    (hnp : (is_already_processed email.gmail_id rule.identifier ledger).1 = false)
    (hmatch : (evaluate_rule rule rule.conditions email now).1 = true)
    (hempty : rule.actions = []) :
    ∃ s2, process_email port now (rule :: rest) email ledger = .err s2 ∧
      s2.ledger = ledger ∧
      hasRecord s2.ledger email.gmail_id rule.identifier = false := by
  have h3 : (execute_actions port email none rule.actions).2.1 = none := by
    rw [hempty]
    rfl
  have hstep := process_rule_match_unbound port now ⟨email, ledger, none, []⟩
    rule hnp hmatch h3
  have hfilter : (rule :: rest).filter (fun r => r.active) =
      rule :: rest.filter (fun r => r.active) := by
    simp [List.filter_cons, hact]
  have hrun : process_email port now (rule :: rest) email ledger = StepResult.err
      { email := (execute_actions port email none rule.actions).1,
        ledger := ledger,
        success := none,
        events := ([Event.ledgerCheck email.gmail_id rule.identifier false] ++
          (evaluate_rule rule rule.conditions email now).2) ++
          (execute_actions port email none rule.actions).2.2 } := by
    unfold process_email
    rw [hfilter]
    unfold process_rules
    rw [hstep]
    rfl
  refine ⟨_, hrun, rfl, ?_⟩
  show hasRecord ledger email.gmail_id rule.identifier = false
  rw [← is_already_processed_fst_eq]
  exact hnp

/-- C9 (amended) witness: the empty-action rule alone in the rule
list, at concrete inputs. -/
theorem c9_amended_unbound_flag_raises_witness :
    ∃ s2, process_email alwaysTruePort 0 [ruleB] sampleEmail [] = .err s2 ∧
      s2.ledger = [] ∧
      hasRecord s2.ledger sampleEmail.gmail_id ruleB.identifier = false :=
  c9_amended_unbound_flag_raises alwaysTruePort 0 sampleEmail [] ruleB []
    (by decide) (by decide) (by decide) (by decide)

/-- C3: any sequence of upserts from an empty ledger leaves at most
one record per (messageId, ruleIdentifier) pair; an upsert of an
absent pair appends exactly one record; under the uniqueness
invariant, an upsert of a present pair refreshes that record's
timestamp and changes nothing else — no second record is inserted. -/
theorem c3_at_most_one_record_per_pair :
    (∀ calls : List (String × String × Int),
      atMostOnePerPair (calls.foldl
        (fun l c => mark_as_processed c.1 c.2.1 c.2.2 l) [])) ∧
    (∀ (l : List ProcessedEmail) (g i : String) (t : Int),
      hasRecord l g i = false →
        mark_as_processed g i t l = l ++ [⟨g, i, t⟩]) ∧
    (∀ (l : List ProcessedEmail) (g i : String) (t : Int),
      atMostOnePerPair l → hasRecord l g i = true →
        mark_as_processed g i t l = l.map (fun r =>
          if r.gmail_id = g ∧ r.rule_identifier = i then { r with processed_at := t }
          else r)) := by
  refine ⟨?_, ?_, ?_⟩
  · have haux : ∀ (cs : List (String × String × Int)) (l : List ProcessedEmail),
        atMostOnePerPair l →
        atMostOnePerPair (cs.foldl
          (fun l c => mark_as_processed c.1 c.2.1 c.2.2 l) l) := by
      intro cs
      induction cs with
      | nil => intro l h; exact h
      | cons c cs ih =>
        intro l h
        exact ih _ (atMostOnePerPair_mark c.1 c.2.1 c.2.2 l h)
    intro calls
    exact haux calls [] (by intro g i; simp [countPair])
  · intro l g i t h
    exact mark_as_processed_of_absent g i t l h
  · intro l g i t hinv hrec
    exact mark_eq_map_of_unique g i t l hinv hrec

/-- C3 witness: two upserts of the same pair from the empty ledger,
plus the append and refresh cases at concrete records. -/
theorem c3_at_most_one_record_per_pair_witness :
    atMostOnePerPair ([("m1", "R1", (5 : Int)), ("m1", "R1", 9)].foldl
      (fun l c => mark_as_processed c.1 c.2.1 c.2.2 l) []) ∧
    mark_as_processed "m1" "R1" 5 [] = [] ++ [⟨"m1", "R1", 5⟩] ∧
    mark_as_processed "m1" "R1" 9 [⟨"m1", "R1", 5⟩] =
      [(⟨"m1", "R1", 5⟩ : ProcessedEmail)].map (fun r =>
        if r.gmail_id = "m1" ∧ r.rule_identifier = "R1" then { r with processed_at := 9 }
        else r) :=
  ⟨c3_at_most_one_record_per_pair.1 [("m1", "R1", (5 : Int)), ("m1", "R1", 9)],
   c3_at_most_one_record_per_pair.2.1 [] "m1" "R1" 5 (by decide),
   c3_at_most_one_record_per_pair.2.2 [⟨"m1", "R1", 5⟩] "m1" "R1" 9
     (by intro g i; rw [countPair_cons]; split <;> simp [countPair])
     (by decide)⟩

/-- C4: the ledger query is true exactly when a record with the exact
(messageId, ruleIdentifier) pair exists; when the message has records
only under other identifiers it answers false and surfaces the most
recently processed record's identifier; consequently a rule whose
identifier changed is not skipped — its conditions are re-evaluated —
and, on a match whose final action succeeds, a new ProcessedRecord is
appended with every old record left untouched. -/
theorem c4_exact_pair_query (g i : String) (l : List ProcessedEmail) :
    ((is_already_processed g i l).1 = true ↔
      ∃ r ∈ l, r.gmail_id = g ∧ r.rule_identifier = i) ∧
    ((∃ r ∈ l, r.gmail_id = g) →
      (¬∃ r ∈ l, r.gmail_id = g ∧ r.rule_identifier = i) →
      (is_already_processed g i l).1 = false ∧
      ∃ r ∈ l, r.gmail_id = g ∧
        r.rule_identifier = (is_already_processed g i l).2 ∧
        ∀ r2 ∈ l, r2.gmail_id = g → r2.processed_at ≤ r.processed_at) ∧
    (∀ (port : PortCall → Bool) (now : Int) (s : EngineState) (rule : Rule),
      s.email.gmail_id = g → rule.identifier = i → s.ledger = l →
      (¬∃ r ∈ l, r.gmail_id = g ∧ r.rule_identifier = i) →
      (evaluate_rule rule rule.conditions s.email now).1 = true →
      (execute_actions port s.email s.success rule.actions).2.1 = some true →
      ∃ s2, process_rule port now s rule = .ok s2 ∧
        s2.ledger = l ++ [⟨g, i, now⟩] ∧
        ∀ ev ∈ (evaluate_rule rule rule.conditions s.email now).2,
          ev ∈ s2.events) := by
  refine ⟨is_already_processed_fst_iff g i l, ?_, ?_⟩
  · intro hsome hnone
    exact is_already_processed_snd_latest g i l hsome hnone
  · intro port now s rule hge hie hle hnoexact hmatch hsucc
    have habs : hasRecord l g i = false := by
      cases hb : hasRecord l g i
      · rfl
      · exact absurd ((hasRecord_true_iff l g i).mp hb) hnoexact
    have hnp : (is_already_processed s.email.gmail_id rule.identifier s.ledger).1 =
        false := by
      rw [is_already_processed_fst_eq, hge, hie, hle]
      exact habs
    refine ⟨_, process_rule_match_mark port now s rule hnp hmatch hsucc, ?_, ?_⟩
    · show mark_as_processed _ _ _ _ = _
      rw [execute_actions_gmail_id, hge, hie, hle]
      exact mark_as_processed_of_absent g i now l habs
    · intro ev hev
      show ev ∈ (_ ++ _) ++ _
      simp only [List.mem_append]
      exact Or.inl (Or.inl (Or.inr hev))

/-- C4 witness: a ledger with one record under an old identifier, the
query for a new identifier, and a full re-processing step under it. -/
theorem c4_exact_pair_query_witness :
    ((is_already_processed "m1" "R1" [⟨"m1", "OLD", 3⟩]).1 = false ∧
      ∃ r ∈ [(⟨"m1", "OLD", 3⟩ : ProcessedEmail)], r.gmail_id = "m1" ∧
        r.rule_identifier = (is_already_processed "m1" "R1" [⟨"m1", "OLD", 3⟩]).2 ∧
        ∀ r2 ∈ [(⟨"m1", "OLD", 3⟩ : ProcessedEmail)], r2.gmail_id = "m1" →
          r2.processed_at ≤ r.processed_at) ∧
    ∃ s2, process_rule alwaysTruePort 9
        ⟨sampleEmail, [⟨"m1", "OLD", 3⟩], none, []⟩ ruleA = .ok s2 ∧
      s2.ledger = [⟨"m1", "OLD", 3⟩] ++ [⟨"m1", "A1", 9⟩] ∧
      ∀ ev ∈ (evaluate_rule ruleA ruleA.conditions sampleEmail 9).2,
        ev ∈ s2.events :=
  ⟨(c4_exact_pair_query "m1" "R1" [⟨"m1", "OLD", 3⟩]).2.1
      (by decide) (by decide),
   (c4_exact_pair_query "m1" "A1" [⟨"m1", "OLD", 3⟩]).2.2 alwaysTruePort 9
      ⟨sampleEmail, [⟨"m1", "OLD", 3⟩], none, []⟩ ruleA
      (by decide) (by decide) rfl (by decide) (by decide) (by decide)⟩

/-- C5: a rule whose condition list is empty never matches, whatever
the predicate mode — in particular for both `all` and `any`. -/
theorem c5_empty_conditions_never_match (rule : Rule) (email : Email) (now : Int)
    (h : rule.conditions = []) :
    (evaluate_rule rule rule.conditions email now).1 = false := by
  rw [h]
  rfl

/-- C5 witness: the empty-condition rule at concrete inputs, in both
predicate modes. -/
theorem c5_empty_conditions_never_match_witness :
    (evaluate_rule ⟨"R1", "r", "all", true, [], []⟩
      (Rule.conditions ⟨"R1", "r", "all", true, [], []⟩) sampleEmail 0).1 = false ∧
    (evaluate_rule ⟨"R2", "r", "any", true, [], []⟩
      (Rule.conditions ⟨"R2", "r", "any", true, [], []⟩) sampleEmail 0).1 = false :=
  ⟨c5_empty_conditions_never_match ⟨"R1", "r", "all", true, [], []⟩ sampleEmail 0 rfl,
   c5_empty_conditions_never_match ⟨"R2", "r", "any", true, [], []⟩ sampleEmail 0 rfl⟩

/-- C6: on a non-empty condition list the matcher is the AND of the
individual evaluations under predicate `all` and the OR under `any`,
and every condition is evaluated (one trace entry per condition). -/
theorem c6_predicate_all_any (rule : Rule) (conds : List RuleCondition)
    (email : Email) (now : Int) (h : conds ≠ []) :
    (rule.predicate = "all" →
      (evaluate_rule rule conds email now).1 =
        conds.all (fun c => evaluate_condition c email now)) ∧
    (rule.predicate = "any" →
      (evaluate_rule rule conds email now).1 =
        conds.any (fun c => evaluate_condition c email now)) ∧
    (evaluate_rule rule conds email now).2.length = conds.length := by
  obtain ⟨c, cs, rfl⟩ : ∃ c cs, conds = c :: cs := by
    cases conds
    · exact absurd rfl h
    · exact ⟨_, _, rfl⟩
  rw [evaluate_rule_cons]
  refine ⟨?_, ?_, ?_⟩
  · intro hp
    simp [hp]
  · intro hp
    simp [hp]
  · simp

/-- C6 witness: a two-condition rule at concrete inputs. -/
theorem c6_predicate_all_any_witness :
    (evaluate_rule ⟨"R1", "r", "all", true, [], []⟩
        [sampleCond, ⟨"subject", "equals", "x", none⟩] sampleEmail 0).1 =
      ([sampleCond, ⟨"subject", "equals", "x", none⟩].all
        (fun c => evaluate_condition c sampleEmail 0)) :=
  (c6_predicate_all_any ⟨"R1", "r", "all", true, [], []⟩
    [sampleCond, ⟨"subject", "equals", "x", none⟩] sampleEmail 0
    (by decide)).1 rfl

/-- C10: with a non-empty condition list, any predicate string other
than `all` — not only `any` — combines the results with OR, exactly as
predicate `any` would. -/
theorem c10_unknown_predicate_behaves_as_any (rule : Rule)
    (conds : List RuleCondition) (email : Email) (now : Int)
    (h1 : conds ≠ []) (h2 : rule.predicate ≠ "all") :
    (evaluate_rule rule conds email now).1 =
      conds.any (fun c => evaluate_condition c email now) ∧
    (evaluate_rule rule conds email now).1 =
      (evaluate_rule { rule with predicate := "any" } conds email now).1 := by
  obtain ⟨c, cs, rfl⟩ : ∃ c cs, conds = c :: cs := by
    cases conds
    · exact absurd rfl h1
    · exact ⟨_, _, rfl⟩
  have hb : (rule.predicate == "all") = false := by
    cases hx : rule.predicate == "all"
    · rfl
    · exact absurd (by simpa using hx) h2
  rw [evaluate_rule_cons, evaluate_rule_cons]
  simp [hb]

/-- C10 witness: a rule with predicate `"none"` at concrete inputs. -/
theorem c10_unknown_predicate_behaves_as_any_witness :
    (evaluate_rule ⟨"R1", "r", "none", true, [], []⟩ [sampleCond] sampleEmail 0).1 =
      ([sampleCond].any (fun c => evaluate_condition c sampleEmail 0)) :=
  (c10_unknown_predicate_behaves_as_any ⟨"R1", "r", "none", true, [], []⟩
    [sampleCond] sampleEmail 0 (by decide) (by decide)).1

/-- C7: a `received_date` condition whose value fails to parse as an
integer, or parses to a non-positive integer, evaluates to `false` for
every message and every predicate — including `greater_than`, whose
comparison is never reached — and the embedding is a total function,
mirroring the source's catch of `ValueError`/`TypeError`. -/
theorem c7_date_guard (cond : RuleCondition) (email : Email) (now : Int)
    (hf : cond.field = "received_date")
    (hbad : pyIntOfString cond.value = none ∨
      ∃ v, pyIntOfString cond.value = some v ∧ v ≤ 0) :
    evaluate_condition cond email now = false := by
  unfold evaluate_condition
  rw [hf]
  rw [if_neg (by decide : ¬(("received_date" == "from") = true))]
  rw [if_neg (by decide : ¬(("received_date" == "subject") = true))]
  rw [if_neg (by decide : ¬(("received_date" == "message") = true))]
  rw [if_pos (by decide : ("received_date" == "received_date") = true)]
  unfold evaluate_date_condition
  rcases hbad with hb | ⟨v, hv, hle⟩
  · rw [hb]
  · rw [hv]
    dsimp only
    rw [if_pos hle]

/-- C7 witness: `greater_than` with value `"-1"` (and an unparseable
value) on a concrete message. -/
theorem c7_date_guard_witness :
    evaluate_condition ⟨"received_date", "greater_than", "-1", some "days"⟩
      sampleEmail 0 = false ∧
    evaluate_condition ⟨"received_date", "less_than", "soon", some "days"⟩
      sampleEmail 0 = false :=
  ⟨c7_date_guard ⟨"received_date", "greater_than", "-1", some "days"⟩ sampleEmail 0
      rfl (Or.inr ⟨-1, by decide, by decide⟩),
   c7_date_guard ⟨"received_date", "less_than", "soon", some "days"⟩ sampleEmail 0
      rfl (Or.inl (by decide))⟩

end GmailRules
